import Mathlib

/-!
Verification development for the Kamodo function-registry and
symbolic-composition engine.  The repository ships only a demonstration
notebook; the engine itself (registry, key parser, unit resolver,
expression parser, function compiler, metadata carrier) is modelled here
from the specification, component by component, and the specified
properties are proved about the model.
-/

namespace Kamodo

/-- Modelled from the spec: the taxonomy of structural errors raised by
registry mutation (section 7 of the specification). -/
inductive RegistryError where
  | MalformedKeyError
  | UnknownSymbolError
  | IncompatibleUnitsError
  | CyclicDependencyError
  | DependentEntryExistsError
deriving DecidableEq

/-- Exact rational scale factor, kept in lowest terms by construction.
A self-contained fraction type is used so that all arithmetic reduces
inside the kernel. -/
structure Frac where
  num : Int
  den : Nat
deriving DecidableEq

/-- Fuel-driven Euclidean greatest common divisor. -/
def gcdF : Nat → Nat → Nat → Nat
  | 0, _, n => n
  | _ + 1, 0, n => n
  | f + 1, m + 1, n => gcdF f (n % (m + 1)) (m + 1)

def natGcd (m n : Nat) : Nat := gcdF (m + n + 1) m n

/-- Build a fraction in lowest terms with a positive denominator. -/
def mkFrac (n : Int) (d : Int) : Frac :=
  if d = 0 then ⟨0, 1⟩
  else
    let sn : Int := if d < 0 then -n else n
    let dn : Nat := d.natAbs
    let g : Nat := natGcd sn.natAbs dn
    if g = 0 then ⟨0, 1⟩ else ⟨sn / (g : Int), dn / g⟩

def fone : Frac := ⟨1, 1⟩

def fofNat (n : Nat) : Frac := ⟨(n : Int), 1⟩

def fadd (a b : Frac) : Frac :=
  mkFrac (a.num * (b.den : Int) + b.num * (a.den : Int)) ((a.den : Int) * (b.den : Int))

def fneg (a : Frac) : Frac := ⟨-a.num, a.den⟩

def fsub (a b : Frac) : Frac := fadd a (fneg b)

def fmul (a b : Frac) : Frac := mkFrac (a.num * b.num) ((a.den : Int) * (b.den : Int))

def finv (a : Frac) : Frac := mkFrac (a.den : Int) a.num

def fdiv (a b : Frac) : Frac := fmul a (finv b)

def fpowNat (q : Frac) : Nat → Frac
  | 0 => fone
  | 1 => q
  | n + 2 => fmul q (fpowNat q (n + 1))

def fpowInt (q : Frac) : Int → Frac
  | .ofNat n => fpowNat q n
  | .negSucc n => finv (fpowNat q (n + 1))

/-- Dimension vector over the base dimensions mass, length, time. -/
structure Dim where
  mass : Int
  length : Int
  time : Int
deriving DecidableEq

def dimZero : Dim := ⟨0, 0, 0⟩

def dimAdd (a b : Dim) : Dim := ⟨a.mass + b.mass, a.length + b.length, a.time + b.time⟩

def dimNeg (a : Dim) : Dim := ⟨-a.mass, -a.length, -a.time⟩

def dimSub (a b : Dim) : Dim := dimAdd a (dimNeg b)

def dimSmul (n : Int) (a : Dim) : Dim := ⟨n * a.mass, n * a.length, n * a.time⟩

/-- Modelled from the spec: a canonical unit is a dimension vector plus a
scale factor relative to a fixed base unit system (bases: gram, meter,
second). -/
structure CanonicalUnit where
  dim : Dim
  scale : Frac
deriving DecidableEq

def unitOne : CanonicalUnit := ⟨dimZero, fone⟩

def unitMul (a b : CanonicalUnit) : CanonicalUnit :=
  ⟨dimAdd a.dim b.dim, fmul a.scale b.scale⟩

def unitPowInt (a : CanonicalUnit) (n : Int) : CanonicalUnit :=
  ⟨dimSmul n a.dim, fpowInt a.scale n⟩

def unitDiv (a b : CanonicalUnit) : CanonicalUnit := unitMul a (unitPowInt b (-1))

/-- Binary operations under which two units can be combined. -/
inductive UnitOp where
  | addU
  | subU
  | mulU
  | divU

/-- Modelled from the spec: combining canonical units.  Multiplication and
division always succeed (dimension vectors are summed or subtracted and
scale factors multiplied or divided); addition and subtraction succeed
only when the dimension vectors match, else they fail with
`IncompatibleUnitsError`. -/
def combine : UnitOp → CanonicalUnit → CanonicalUnit → Except RegistryError CanonicalUnit
  | .mulU, a, b => .ok (unitMul a b)
  | .divU, a, b => .ok (unitDiv a b)
  | .addU, a, b => if a.dim = b.dim then .ok a else .error .IncompatibleUnitsError
  | .subU, a, b => if a.dim = b.dim then .ok a else .error .IncompatibleUnitsError

/-- Modelled from the spec: the multiplicative factor between two units of
identical dimension; `none` when the dimensions differ. -/
def conversion_factor (a b : CanonicalUnit) : Option Frac :=
  if a.dim = b.dim then some (fdiv a.scale b.scale) else none

/-- Split a character list on a separator character. -/
def splitOnChar (c : Char) (cs : List Char) : List (List Char) :=
  cs.foldr
    (fun ch acc =>
      if ch = c then [] :: acc
      else
        match acc with
        | a :: rest => (ch :: a) :: rest
        | [] => [[ch]])
    [[]]

/-- Base table of surface unit tokens (scales relative to gram, meter,
second). -/
def atomUnit : String → Option CanonicalUnit
  | "g" => some ⟨⟨1, 0, 0⟩, ⟨1, 1⟩⟩
  | "kg" => some ⟨⟨1, 0, 0⟩, ⟨1000, 1⟩⟩
  | "m" => some ⟨⟨0, 1, 0⟩, ⟨1, 1⟩⟩
  | "cm" => some ⟨⟨0, 1, 0⟩, ⟨1, 100⟩⟩
  | "km" => some ⟨⟨0, 1, 0⟩, ⟨1000, 1⟩⟩
  | "s" => some ⟨⟨0, 0, 1⟩, ⟨1, 1⟩⟩
  | _ => none

def digitsToNat (cs : List Char) : Nat :=
  cs.foldl (fun n c => 10 * n + (c.toNat - 48)) 0

def parseIntChars (cs : List Char) : Option Int :=
  match cs with
  | '-' :: rest =>
      if rest ≠ [] ∧ rest.all Char.isDigit then some (-(digitsToNat rest : Int)) else none
  | _ =>
      if cs ≠ [] ∧ cs.all Char.isDigit then some (digitsToNat cs : Int) else none

def parseUnitFactor (cs : List Char) : Option CanonicalUnit :=
  match splitOnChar '^' cs with
  | [a] => atomUnit (String.mk a)
  | [a, e] => do
      let u ← atomUnit (String.mk a)
      let n ← parseIntChars e
      pure (unitPowInt u n)
  | _ => none

def parseUnitProduct (cs : List Char) : Option CanonicalUnit := do
  let fs ← (splitOnChar '*' cs).mapM parseUnitFactor
  pure (fs.foldl unitMul unitOne)

/-- Modelled from the spec: `normalize` maps surface unit syntax (for
example `kg/m^3`, `cm^3`, `g`) to a canonical unit. -/
def normalize (s : String) : Option CanonicalUnit :=
  match splitOnChar '/' s.data with
  | [n] => parseUnitProduct n
  | [n, d] => do
      let a ← parseUnitProduct n
      let b ← parseUnitProduct d
      pure (unitDiv a b)
  | _ => none

/-- Tokens of the right-hand-side expression grammar. -/
inductive Tok where
  | num (n : Nat)
  | ident (s : String)
  | plus
  | minus
  | star
  | slash
  | dstar
  | lpar
  | rpar
deriving DecidableEq

/-- Fuel-driven tokenizer for right-hand-side expression strings. -/
def tokenizeF : Nat → List Char → Option (List Tok)
  | 0, _ => none
  | _ + 1, [] => some []
  | f + 1, c :: cs =>
    if c = ' ' then tokenizeF f cs
    else if c.isDigit then
      let ds := (c :: cs).takeWhile Char.isDigit
      let rest := (c :: cs).dropWhile Char.isDigit
      (tokenizeF f rest).map (Tok.num (digitsToNat ds) :: ·)
    else if c.isAlpha || c == '_' then
      let p : Char → Bool := fun ch => ch.isAlphanum || ch == '_'
      let ds := (c :: cs).takeWhile p
      let rest := (c :: cs).dropWhile p
      (tokenizeF f rest).map (Tok.ident (String.mk ds) :: ·)
    else if c = '*' then
      match cs with
      | '*' :: cs2 => (tokenizeF f cs2).map (Tok.dstar :: ·)
      | _ => (tokenizeF f cs).map (Tok.star :: ·)
    else if c = '+' then (tokenizeF f cs).map (Tok.plus :: ·)
    else if c = '-' then (tokenizeF f cs).map (Tok.minus :: ·)
    else if c = '/' then (tokenizeF f cs).map (Tok.slash :: ·)
    else if c = '(' then (tokenizeF f cs).map (Tok.lpar :: ·)
    else if c = ')' then (tokenizeF f cs).map (Tok.rpar :: ·)
    else none

def tokenize (s : String) : Option (List Tok) := tokenizeF (s.length + 1) s.data

/-- Surface abstract syntax tree of a right-hand-side expression, exactly
as written. -/
inductive SExpr where
  | num (n : Nat)
  | sym (s : String)
  | add (a b : SExpr)
  | sub (a b : SExpr)
  | mul (a b : SExpr)
  | div (a b : SExpr)
  | pow (a b : SExpr)
deriving DecidableEq

/-- Parser modes: additive level, additive continuation, multiplicative
level, multiplicative continuation, exponent level, atom level. -/
inductive PMode where
  | e
  | eR (a : SExpr)
  | t
  | tR (a : SExpr)
  | f
  | atomM

/-- Modelled from the spec: fuel-driven recursive-descent parser for the
expression grammar (arithmetic, exponent, parentheses, symbols). -/
def parseP : Nat → PMode → List Tok → Option (SExpr × List Tok)
  | 0, _, _ => none
  | fu + 1, .e, ts => do
      let (a, ts1) ← parseP fu .t ts
      parseP fu (.eR a) ts1
  | fu + 1, .eR a, Tok.plus :: ts => do
      let (b, ts1) ← parseP fu .t ts
      parseP fu (.eR (SExpr.add a b)) ts1
  | fu + 1, .eR a, Tok.minus :: ts => do
      let (b, ts1) ← parseP fu .t ts
      parseP fu (.eR (SExpr.sub a b)) ts1
  | _ + 1, .eR a, ts => some (a, ts)
  | fu + 1, .t, ts => do
      let (a, ts1) ← parseP fu .f ts
      parseP fu (.tR a) ts1
  | fu + 1, .tR a, Tok.star :: ts => do
      let (b, ts1) ← parseP fu .f ts
      parseP fu (.tR (SExpr.mul a b)) ts1
  | fu + 1, .tR a, Tok.slash :: ts => do
      let (b, ts1) ← parseP fu .f ts
      parseP fu (.tR (SExpr.div a b)) ts1
  | _ + 1, .tR a, ts => some (a, ts)
  | fu + 1, .f, ts => do
      let (a, ts1) ← parseP fu .atomM ts
      match ts1 with
      | Tok.dstar :: ts2 => do
          let (b, ts3) ← parseP fu .f ts2
          some (SExpr.pow a b, ts3)
      | _ => some (a, ts1)
  | _ + 1, .atomM, Tok.num n :: ts => some (SExpr.num n, ts)
  | _ + 1, .atomM, Tok.ident s :: ts => some (SExpr.sym s, ts)
  | fu + 1, .atomM, Tok.lpar :: ts => do
      let (a, ts1) ← parseP fu .e ts
      match ts1 with
      | Tok.rpar :: ts2 => some (a, ts2)
      | _ => none
  | _ + 1, .atomM, _ => none

/-- Modelled from the spec: parse a right-hand-side string into a surface
abstract syntax tree. -/
def parse (s : String) : Option SExpr := do
  let ts ← tokenize s
  let (a, rest) ← parseP (8 * ts.length + 16) .e ts
  if rest = [] then some a else none

/-- Canonical symbolic expression: rational constants are explicit, calls
record a referenced registry entry applied to argument names, exponents
are rational. -/
inductive CExpr where
  | rat (q : Frac)
  | sym (s : String)
  | call (f : String) (args : List String)
  | add (a b : CExpr)
  | mul (a b : CExpr)
  | pow (b : CExpr) (e : Frac)
deriving DecidableEq

/-- Flatten a product into its rational coefficient and non-rational
factors, in left-to-right order. -/
def splitMul : CExpr → Frac × List CExpr
  | .mul a b =>
      let p1 := splitMul a
      let p2 := splitMul b
      (fmul p1.1 p2.1, p1.2 ++ p2.2)
  | .rat q => (q, [])
  | e => (fone, [e])

/-- Flatten a sum into its terms, in left-to-right order. -/
def flattenAdd : CExpr → List CExpr
  | .add a b => flattenAdd a ++ flattenAdd b
  | e => [e]

/-- A purely rational expression reduces to its value. -/
def ratOf (e : CExpr) : Option Frac :=
  match splitMul e with
  | (c, []) => some c
  | _ => none

/-- Canonicalize a surface tree: numeric division folds into rational
coefficients and exponents must be rational. -/
def toC : SExpr → Option CExpr
  | .num n => some (.rat (fofNat n))
  | .sym s => some (.sym s)
  | .add a b => do
      pure (.add (← toC a) (← toC b))
  | .sub a b => do
      pure (.add (← toC a) (.mul (.rat ⟨-1, 1⟩) (← toC b)))
  | .mul a b => do
      pure (.mul (← toC a) (← toC b))
  | .div a b => do
      let ca ← toC a
      let cb ← toC b
      match ratOf cb with
      | some q => pure (.mul ca (.rat (finv q)))
      | none => pure (.mul ca (.pow cb ⟨-1, 1⟩))
  | .pow a b => do
      let ca ← toC a
      let cb ← toC b
      match ratOf cb with
      | some q => pure (.pow ca q)
      | none => none

def natStr (n : Nat) : String := String.mk (Nat.toDigits 10 n)

def intStr : Int → String
  | .ofNat n => natStr n
  | .negSucc n => "-" ++ natStr (n + 1)

def fracStr (q : Frac) : String :=
  if q.den = 1 then intStr q.num else intStr q.num ++ "/" ++ natStr q.den

def joinSep (sep : String) : List String → String
  | [] => ""
  | [x] => x
  | x :: y :: xs => x ++ sep ++ joinSep sep (y :: xs)

/-- Exponents print bare when natural, parenthesized when rational. -/
def expStr (q : Frac) : String :=
  if q.den = 1 ∧ 0 ≤ q.num then intStr q.num else "(" ++ fracStr q ++ ")"

/-- Printer levels: sum level, factor level, power-base level. -/
inductive PrLvl where
  | addL
  | factorL
  | baseL

def sizeC : CExpr → Nat
  | .rat _ => 1
  | .sym _ => 1
  | .call _ _ => 1
  | .add a b => sizeC a + sizeC b + 1
  | .mul a b => sizeC a + sizeC b + 1
  | .pow b _ => sizeC b + 1

/-- Fuel-driven printer producing the canonical text form of an
expression (products carry their rational coefficient as a leading
integer numerator and a trailing integer denominator). -/
def printM : Nat → PrLvl → CExpr → String
  | 0, _, _ => ""
  | f + 1, .addL, e =>
      joinSep " + " ((flattenAdd e).map (fun t =>
        let p := splitMul t
        if p.2 = [] then fracStr p.1
        else
          let body := joinSep "*" (p.2.map (printM f .factorL))
          let withNum := if p.1.num = 1 then body else intStr p.1.num ++ "*" ++ body
          if p.1.den = 1 then withNum else withNum ++ "/" ++ natStr p.1.den))
  | f + 1, .factorL, e =>
      match e with
      | .pow b ex => printM f .baseL b ++ "**" ++ expStr ex
      | .call g args => g ++ "(" ++ joinSep ", " args ++ ")"
      | .sym s => s
      | .rat q => fracStr q
      | e2 => "(" ++ printM f .addL e2 ++ ")"
  | f + 1, .baseL, e =>
      match e with
      | .sym s => s
      | .call g args => g ++ "(" ++ joinSep ", " args ++ ")"
      | .rat q => if q.den = 1 ∧ 0 ≤ q.num then fracStr q else "(" ++ fracStr q ++ ")"
      | e2 => "(" ++ printM f .addL e2 ++ ")"

def printC (e : CExpr) : String := printM (4 * sizeC e + 8) .addL e

/-- Names treated as symbolic constants rather than free parameters. -/
def constNames : List String := ["pi", "E"]

/-- All free-parameter occurrences of an expression, in first-seen order,
with repetitions; a call contributes the referenced own
parameters. -/
def freeSeq : CExpr → List String
  | .rat _ => []
  | .sym s => if s ∈ constNames then [] else [s]
  | .call _ args => args
  | .add a b => freeSeq a ++ freeSeq b
  | .mul a b => freeSeq a ++ freeSeq b
  | .pow b _ => freeSeq b

def addParam (acc : List String) (s : String) : List String :=
  if s ∈ acc then acc else acc ++ [s]

/-- Modelled from the spec: the compiled parameter list is the union, in
first-seen order, of the free parameters of the expression. -/
def paramsOf (e : CExpr) : List String := (freeSeq e).foldl addParam []

/-- Modelled from the spec: the unit of storage of the registry.  `rhs` is the
printed expression text for derived entries and `none` for primitive
ones; `deps` records the bare names of referenced entries; `fn` is the
compiled or wrapped numeric callable (arguments by position). -/
structure Entry where
  name : String
  args : List String
  unitStr : String
  rhs : Option String
  deps : List String
  fn : List Frac → Option Frac

/-- Modelled from the spec: an ordered mapping from symbol to entry;
insertion order is the list order. -/
abbrev Registry := List Entry

/-- The full signature key of an entry, for example `rho(x, y, z)`. -/
def sigKey (e : Entry) : String := e.name ++ "(" ++ joinSep ", " e.args ++ ")"

/-- A lookup key matches an entry through either of its two key forms. -/
def keyMatches (k : String) (e : Entry) : Bool := k == e.name || k == sigKey e

def names (r : Registry) : List String := r.map (fun e => e.name)

def findEntry (r : Registry) (s : String) : Option Entry :=
  r.find? (fun e => e.name == s)

/-- Modelled from the spec: `get` returns the stored entry, failing with
`UnknownSymbolError` when the key is absent. -/
def get (r : Registry) (k : String) : Except RegistryError Entry :=
  match r.find? (keyMatches k) with
  | some e => .ok e
  | none => .error .UnknownSymbolError

def dummyEntry : Entry := ⟨"", [], "", none, [], fun _ => none⟩

def getD (r : Registry) (k : String) : Entry := ((get r k).toOption).getD dummyEntry

/-- The storage slot (position) a key resolves to. -/
def slot : Registry → String → Option Nat
  | [], _ => none
  | e :: rest, k => if keyMatches k e then some 0 else (slot rest k).map (· + 1)

/-- Modelled from the spec: resolve each free symbol that names an
existing entry into a call of that entry applied to its own parameters. -/
def resolve (r : Registry) : CExpr → CExpr
  | .rat q => .rat q
  | .sym s =>
      match findEntry r s with
      | some e => .call s e.args
      | none => .sym s
  | .call f args => .call f args
  | .add a b => .add (resolve r a) (resolve r b)
  | .mul a b => .mul (resolve r a) (resolve r b)
  | .pow b ex => .pow (resolve r b) ex

/-- Bare names of the entries referenced by an expression. -/
def depsOf : CExpr → List String
  | .rat _ => []
  | .sym _ => []
  | .call f _ => [f]
  | .add a b => depsOf a ++ depsOf b
  | .mul a b => depsOf a ++ depsOf b
  | .pow b _ => depsOf b

/-- Fuel-driven reachability through the dependency relation stored in
the registry. -/
def reaches (r : Registry) : Nat → String → List String → Bool
  | 0, _, _ => false
  | f + 1, target, fr =>
      fr.any (fun d =>
        d == target ||
        (match findEntry r d with
         | some e => reaches r f target e.deps
         | none => false))

/-- Modelled from the spec: derive the unit of an expression.  Units
combine through `combine`: multiplicative composition always succeeds,
additive composition requires identical dimensions. -/
def unitOf (r : Registry) : CExpr → Except RegistryError (Option CanonicalUnit)
  | .rat _ => .ok none
  | .sym _ => .ok none
  | .call f _ =>
      match findEntry r f with
      | some e => .ok (if e.unitStr = "" then none else normalize e.unitStr)
      | none => .error .UnknownSymbolError
  | .add a b => do
      let ua ← unitOf r a
      let ub ← unitOf r b
      match ua, ub with
      | some u, some v =>
          match combine .addU u v with
          | .ok w => .ok (some w)
          | .error er => .error er
      | some u, none => .ok (some u)
      | none, x => .ok x
  | .mul a b => do
      let ua ← unitOf r a
      let ub ← unitOf r b
      match ua, ub with
      | some u, some v =>
          match combine .mulU u v with
          | .ok w => .ok (some w)
          | .error er => .error er
      | some u, none => .ok (some u)
      | none, x => .ok x
  | .pow b ex => do
      let ub ← unitOf r b
      match ub with
      | none => .ok none
      | some u =>
          if ex.den = 1 then .ok (some (unitPowInt u ex.num)) else .error .IncompatibleUnitsError

def lookupEnv (env : List (String × Frac)) (s : String) : Option Frac :=
  (env.find? (fun p => p.1 == s)).map (fun p => p.2)

/-- Modelled from the spec: evaluation semantics of a compiled
expression; referenced entries are invoked internally through the
registry snapshot captured at registration time. -/
def evalC (r : Registry) (env : List (String × Frac)) : CExpr → Option Frac
  | .rat q => some q
  | .sym s => lookupEnv env s
  | .call f args => do
      let e ← findEntry r f
      let vs ← args.mapM (lookupEnv env)
      e.fn vs
  | .add a b => do
      let x ← evalC r env a
      let y ← evalC r env b
      pure (fadd x y)
  | .mul a b => do
      let x ← evalC r env a
      let y ← evalC r env b
      pure (fmul x y)
  | .pow b ex => do
      let x ← evalC r env b
      if ex.den = 1 then pure (fpowInt x ex.num) else none

def trimSpaces (cs : List Char) : List Char :=
  ((cs.dropWhile (fun c => c == ' ')).reverse.dropWhile (fun c => c == ' ')).reverse

def isIdentStr (cs : List Char) : Bool :=
  match cs with
  | [] => false
  | c :: rest => (c.isAlpha || c == '_') && rest.all (fun ch => ch.isAlphanum || ch == '_')

def parseKeyMain (cs : List Char) (unitPart : Option String) :
    Except RegistryError (String × Option (List String) × Option String) :=
  match splitOnChar '(' cs with
  | [nm] =>
      if isIdentStr (trimSpaces nm) then .ok (String.mk (trimSpaces nm), none, unitPart)
      else .error .MalformedKeyError
  | [nm, rest] =>
      match splitOnChar ')' rest with
      | [inner, []] =>
          let nmT := trimSpaces nm
          let argCs := (splitOnChar ',' inner).map trimSpaces
          if isIdentStr nmT && argCs.all isIdentStr then
            .ok (String.mk nmT, some (argCs.map String.mk), unitPart)
          else .error .MalformedKeyError
      | _ => .error .MalformedKeyError
  | _ => .error .MalformedKeyError

/-- Modelled from the spec: parse a registration key into its bare name,
optional explicit argument list and optional unit annotation, failing
with `MalformedKeyError` on unbalanced brackets or a malformed name. -/
def parseKey (s : String) :
    Except RegistryError (String × Option (List String) × Option String) :=
  match splitOnChar '[' s.data with
  | [main] => parseKeyMain (trimSpaces main) none
  | [main, u] =>
      match splitOnChar ']' u with
      | [inner, []] => parseKeyMain (trimSpaces main) (some (String.mk (trimSpaces inner)))
      | _ => .error .MalformedKeyError
  | _ => .error .MalformedKeyError

/-- A value registered under a key: either a wrapped callable carrying
its own argument list and units, or a plain expression string. -/
inductive Val where
  | fnV (args : List String) (units : String) (fn : List Frac → Option Frac)
  | strV (s : String)

/-- Replace in place when the bare name exists, else append. -/
def insertEntry (r : Registry) (e : Entry) : Registry :=
  if r.any (fun e0 => e0.name == e.name) then
    r.map (fun e0 => if e0.name == e.name then e else e0)
  else r ++ [e]

/-- The payload of a new entry, everything except its bare name. -/
structure EntryParts where
  args : List String
  unitStr : String
  rhs : Option String
  deps : List String
  fn : List Frac → Option Frac

/-- Modelled from the spec: validate and compile a registered value —
key-derived data, expression parsing, cycle check, unit resolution and
compilation — without touching the registry. -/
def compileVal (r : Registry) (nm : String) (explicitArgs : Option (List String))
    (unitAnn : Option String) (v : Val) : Except RegistryError EntryParts :=
  match v with
  | .fnV args units fn =>
      .ok ⟨explicitArgs.getD args, unitAnn.getD units, none, [], fn⟩
  | .strV s =>
      match parse s with
      | none => .error .MalformedKeyError
      | some sx =>
          match toC sx with
          | none => .error .MalformedKeyError
          | some cx =>
              let rx := resolve r cx
              let ds := depsOf rx
              if reaches r (r.length + 1) nm ds then .error .CyclicDependencyError
              else do
                let du ← unitOf r rx
                let tu ←
                  match unitAnn with
                  | none => pure (none : Option CanonicalUnit)
                  | some us =>
                      match normalize us with
                      | some u => pure (some u)
                      | none => (.error .MalformedKeyError :
                          Except RegistryError (Option CanonicalUnit))
                let factor ←
                  match du, tu with
                  | some u, some t =>
                      if u.dim = t.dim then pure (fdiv u.scale t.scale)
                      else (.error .IncompatibleUnitsError : Except RegistryError Frac)
                  | _, _ => pure fone
                let fx := if factor = fone then rx else .mul rx (.rat factor)
                let ps := paramsOf fx
                let args ←
                  match explicitArgs with
                  | none => pure ps
                  | some as2 =>
                      if ps.all (fun p => as2.contains p) then pure as2
                      else (.error .UnknownSymbolError :
                          Except RegistryError (List String))
                pure ⟨args, unitAnn.getD "", some (printC fx), ds,
                  fun vals => evalC r (args.zip vals) fx⟩

/-- Modelled from the spec: `set` runs key parsing, expression parsing,
unit resolution and compilation, and only then inserts; every structural
failure leaves the registry untouched. -/
def set (r : Registry) (key : String) (v : Val) : Except RegistryError Registry :=
  match parseKey key with
  | .error er => .error er
  | .ok (nm, explicitArgs, unitAnn) =>
      match compileVal r nm explicitArgs unitAnn v with
      | .error er => .error er
      | .ok p => .ok (insertEntry r ⟨nm, p.args, p.unitStr, p.rhs, p.deps, p.fn⟩)

/-- Modelled from the spec: `delete` removes both key forms of the
referenced entry, guarded against live dependents unless forced. -/
def delete (r : Registry) (key : String) (force : Bool) : Except RegistryError Registry :=
  match r.find? (keyMatches key) with
  | none => .error .UnknownSymbolError
  | some e =>
      if !force && r.any (fun e2 => e2.name != e.name && e2.deps.contains e.name) then
        .error .DependentEntryExistsError
      else
        .ok (r.filter (fun e2 => e2.name != e.name))

/-- Modelled from the spec: `iterate` yields `(key, entry)` pairs in
insertion order, keyed by bare name. -/
def iterate (r : Registry) : List (String × Entry) := r.map (fun e => (e.name, e))

/-- The registry resulting from a `set` call, the input registry when the
call failed. -/
def setD (r : Registry) (key : String) (v : Val) : Registry :=
  match set r key v with
  | .ok r2 => r2
  | .error _ => r

/-- The registry resulting from a `delete` call, the input registry when
the call failed. -/
def deleteD (r : Registry) (key : String) (force : Bool) : Registry :=
  match delete r key force with
  | .ok r2 => r2
  | .error _ => r

/-- One row of the tabular summary. -/
structure DetailRow where
  lhs : String
  rhs : Option String
  symbol : String
  units : String
deriving DecidableEq

/-- Modelled from the spec: the tabular projection with columns
`lhs, rhs, symbol, units`, one row per bare-name entry in insertion
order. -/
def detail (r : Registry) : List DetailRow :=
  r.map (fun e => ⟨e.name, e.rhs, sigKey e, e.unitStr⟩)

/-- The demonstrated primitive entry `rho(x, y, z) [kg/m^3]`, with an
arbitrary numeric callable. -/
def mkRho (f : List Frac → Option Frac) : Entry :=
  ⟨"rho", ["x", "y", "z"], "kg/m^3", none, [], f⟩

/-- A `vol(x, y) [cm^3]` entry with an arbitrary numeric callable. -/
def mkVol (f : List Frac → Option Frac) : Entry :=
  ⟨"vol", ["x", "y"], "cm^3", none, [], f⟩

def scenReg (f g : List Frac → Option Frac) : Registry := [mkRho f, mkVol g]

def zeroFn : List Frac → Option Frac := fun _ => some ⟨0, 1⟩

def okB {ε α : Type} : Except ε α → Bool
  | .ok _ => true
  | .error _ => false

/-- Metadata record attached by the kamodofy decorator. -/
structure KMeta where
  units : String
  citation : String
  equation : Option String
  hidden_args : List String
deriving DecidableEq

/-- Modelled from the spec: the metadata carrier — a wrapped callable
with its declared defaults, a read-only meta record, and a cached data
snapshot. -/
structure WrappedFn (α β : Type) where
  fn : α → β
  defaults : α
  meta : KMeta
  data : β

/-- Modelled from the spec and the notebook: `kamodofy` wraps a callable;
the data snapshot is the explicitly supplied array when one is given,
else it is computed at wrap time by invoking the callable on its
declared defaults. -/
def kamodofy {α β : Type} (fn : α → β) (defaults : α) (m : KMeta) (dat : Option β) :
    WrappedFn α β :=
  ⟨fn, defaults, m,
    match dat with
    | some d => d
    | none => fn defaults⟩

/-- Shape of a numpy meshgrid over 1-D inputs of the given lengths: with
indexing ij the output shape lists the lengths in order, with indexing
xy the first two axes are swapped (numpy semantics relied on by the
notebook). -/
def meshgridShape (indexing : String) (ls : List Nat) : List Nat :=
  if indexing = "xy" then
    match ls with
    | a :: b :: rest => b :: a :: rest
    | l => l
  else ls

/-- Lengths of the default grids of the notebook model: linspace(1, 4, 11),
linspace(4, 7, 22), linspace(7, 9, 33). -/
def modelGridLens : List Nat := [11, 22, 33]

/-- Shape-level model of the rho interpolating function: it
builds an xy meshgrid of its three arguments and reshapes the
interpolated result to the shape of that grid. -/
def rhoShapeFn (ls : List Nat) : List Nat := meshgridShape "xy" ls

/-- Shape of the `self.data` of the notebook, built from an ij meshgrid. -/
def modelDataShape : List Nat := meshgridShape "ij" modelGridLens

def rhoMeta : KMeta := ⟨"kg/m^3", "Pembroke et al 2019", none, ["indexing"]⟩

/-- The kamodofied rho of the notebook: the data snapshot is supplied
explicitly. -/
def rhoWrapped : WrappedFn (List Nat) (List Nat) :=
  kamodofy rhoShapeFn modelGridLens rhoMeta (some modelDataShape)

/-- Evaluation-time error taxonomy, distinct from the structural
registration-time errors. -/
inductive EvalError where
  | OutOfBoundsError
  | ShapeMismatchError
deriving DecidableEq

def fle (a b : Frac) : Bool := decide (a.num * (b.den : Int) ≤ b.num * (a.den : Int))

/-- Modelled from the spec: a one-dimensional grid-interpolation
capability with a configurable missing-value sentinel, as configured by
the notebook (`bounds_error = False`, `fill_value = missing_value`). -/
structure GridInterp where
  lo : Frac
  hi : Frac
  val : Frac → Frac
  bounds_error : Bool
  fill_value : Frac

/-- Evaluate the interpolator at one query point: inside the domain the
interpolated value is returned; outside it, the behavior follows the
`bounds_error` flag — an error when set, the sentinel otherwise. -/
def interpEval (g : GridInterp) (q : Frac) : Except EvalError Frac :=
  if fle g.lo q && fle q g.hi then .ok (g.val q)
  else if g.bounds_error then .error .OutOfBoundsError
  else .ok g.fill_value

/-- A compiled entry backed by the interpolator, taking one query point
per call. -/
def interpFn (g : GridInterp) : List Frac → Except EvalError Frac
  | [q] => interpEval g q
  | _ => .error .ShapeMismatchError

example : normalize "kg/m^3" = some ⟨⟨1, -3, 0⟩, ⟨1000, 1⟩⟩ := by decide

example : normalize "cm^3" = some ⟨⟨0, 3, 0⟩, ⟨1, 1000000⟩⟩ := by decide

example : normalize "g" = some ⟨⟨1, 0, 0⟩, ⟨1, 1⟩⟩ := by decide

example :
    (do
      let a ← normalize "kg/m^3"
      let b ← normalize "cm^3"
      let c ← normalize "g"
      let p ← (combine .mulU a b).toOption
      conversion_factor p c) = some ⟨1, 1000⟩ := by decide

example :
    (getD (setD [mkRho zeroFn] "vol [cm^3]" (.strV "4/3 * pi * (x**2 + y**2)**(3/2)")) "vol").rhs
      = some "4*pi*(x**2 + y**2)**(3/2)/3" := by decide

example :
    (getD (setD [mkRho zeroFn] "vol [cm^3]" (.strV "4/3 * pi * (x**2 + y**2)**(3/2)")) "vol").args
      = ["x", "y"] := by decide

example :
    (getD (setD (scenReg zeroFn zeroFn) "mass [g]" (.strV "rho*vol")) "mass").rhs
      = some "rho(x, y, z)*vol(x, y)/1000" := by decide

example :
    (getD (setD (scenReg zeroFn zeroFn) "mass [g]" (.strV "rho*vol")) "mass").args
      = ["x", "y", "z"] := by decide

example : parseKey "mass [" = .error .MalformedKeyError := rfl

/-- C7: for all canonical units a and b, `combine` under multiplication
or division always succeeds, yielding summed or subtracted dimension
vectors and multiplied or divided scale factors, while `combine` under
addition or subtraction succeeds exactly when the dimension vectors of a
and b are equal and fails with `IncompatibleUnitsError` otherwise. -/
theorem C7_combine_mul_div_total_add_sub_guarded (a b : CanonicalUnit) :
    combine .mulU a b = .ok ⟨dimAdd a.dim b.dim, fmul a.scale b.scale⟩ ∧
    combine .divU a b = .ok ⟨dimSub a.dim b.dim, fdiv a.scale b.scale⟩ ∧
    combine .addU a b =
      (if a.dim = b.dim then .ok a else .error .IncompatibleUnitsError) ∧
    combine .subU a b =
      (if a.dim = b.dim then .ok a else .error .IncompatibleUnitsError) := by
  refine ⟨rfl, ?_, rfl, rfl⟩
  simp only [combine, unitDiv, unitMul, unitPowInt, dimSub, dimSmul, dimNeg, dimAdd,
    fdiv, fpowInt, fpowNat, neg_one_mul]
  rfl

/-- C5: registering the key `vol [cm^3]` with the expression string
`4/3 * pi * (x**2 + y**2)**(3/2)` succeeds and produces a derived entry
whose detail row has rhs exactly `4*pi*(x**2 + y**2)**(3/2)/3` and units
exactly `cm^3`. -/
theorem C5_vol_detail_row :
    okB (set [mkRho zeroFn] "vol [cm^3]"
        (.strV "4/3 * pi * (x**2 + y**2)**(3/2)")) = true ∧
    detail (setD [mkRho zeroFn] "vol [cm^3]"
        (.strV "4/3 * pi * (x**2 + y**2)**(3/2)")) =
      [⟨"rho", none, "rho(x, y, z)", "kg/m^3"⟩,
       ⟨"vol", some "4*pi*(x**2 + y**2)**(3/2)/3", "vol(x, y)", "cm^3"⟩] := by
  exact ⟨rfl, by decide⟩

/-- C9: with the configuration of the notebook (`bounds_error = false`),
evaluating the interpolation-backed entry at a query point outside the
domain is not an error: the result is the configured missing-value
sentinel. -/
theorem C9_out_of_domain_yields_sentinel (g : GridInterp) (q : Frac)
    (hbe : g.bounds_error = false)
    (hout : (fle g.lo q && fle q g.hi) = false) :
    interpEval g q = .ok g.fill_value ∧
    interpFn g [q] = .ok g.fill_value ∧
    okB (interpEval g q) = true := by
  have h : interpEval g q = .ok g.fill_value := by
    simp [interpEval, hout, hbe]
  exact ⟨h, h, by rw [h]; rfl⟩

/-- Witness for C9: the notebook grid spans [1, 4] on the first axis;
querying at 5 is out of domain and returns the sentinel value. -/
theorem C9_witness :
    interpEval ⟨⟨1, 1⟩, ⟨4, 1⟩, fun _ => ⟨0, 1⟩, false, ⟨999, 1⟩⟩ ⟨5, 1⟩ =
      .ok ⟨999, 1⟩ := by
  exact (C9_out_of_domain_yields_sentinel
    ⟨⟨1, 1⟩, ⟨4, 1⟩, fun _ => ⟨0, 1⟩, false, ⟨999, 1⟩⟩ ⟨5, 1⟩ rfl (by decide)).1

/-- C10: when an explicit data argument is supplied at wrap time, the
stored data is exactly the supplied array; the demonstrated rho is
wrapped with an ij meshgrid of shape (11, 22, 33), while invoking it
with its defaults would produce the xy-ordered shape (22, 11, 33), so
the stored data is not the defaults invocation. -/
theorem C10_explicit_data_kept_verbatim :
    (∀ (α β : Type) (fn : α → β) (d : α) (m : KMeta) (dat : β),
        (kamodofy fn d m (some dat)).data = dat) ∧
    rhoWrapped.data = [11, 22, 33] ∧
    rhoShapeFn modelGridLens = [22, 11, 33] ∧
    rhoWrapped.data ≠ rhoShapeFn modelGridLens := by
  exact ⟨fun α β fn d m dat => rfl, rfl, rfl, by decide⟩

/-- C4 counterexample: for the wrap demonstrated in the notebook, the
stored data snapshot differs from the value obtained by invoking the
wrapped function with its declared defaults, and invoking with defaults
does not yield shape (11, 22, 33) — so data is not always computed by
invoking the wrapped function with its defaults. -/
theorem C4_counterexample :
    rhoWrapped.data ≠ rhoShapeFn modelGridLens ∧
    rhoShapeFn modelGridLens ≠ [11, 22, 33] := by decide

/-- C2: every `set` or `delete` call that fails with a structural error
raises it synchronously and leaves the registry exactly as it was — no
partial insertion or deletion; a malformed key always fails with
`MalformedKeyError`, and a derived registration whose expression
references a symbol that is neither a declared argument nor a registered
entry fails with `UnknownSymbolError`. -/
theorem C2_failed_mutation_leaves_registry_unchanged :
    (∀ (r : Registry) (k : String) (v : Val) (err : RegistryError),
        set r k v = .error err → setD r k v = r) ∧
    (∀ (r : Registry) (k : String) (force : Bool) (err : RegistryError),
        delete r k force = .error err → deleteD r k force = r) ∧
    (∀ (r : Registry) (v : Val), set r "mass [" v = .error .MalformedKeyError) ∧
    set [] "f(x)" (.strV "x + q") = .error .UnknownSymbolError := by
  refine ⟨?_, ?_, ?_, rfl⟩
  · intro r k v err h
    unfold setD
    rw [h]
  · intro r k force err h
    unfold deleteD
    rw [h]
  · intro r v
    rfl

/-- Witness for C2: a malformed-key `set` and an absent-key `delete`
leave a concrete registry unchanged. -/
theorem C2_witness :
    setD [mkRho zeroFn] "mass [" (.strV "rho") = [mkRho zeroFn] ∧
    deleteD [mkRho zeroFn] "vol" false = [mkRho zeroFn] := by
  exact ⟨C2_failed_mutation_leaves_registry_unchanged.1 [mkRho zeroFn] "mass ["
      (.strV "rho") .MalformedKeyError rfl,
    C2_failed_mutation_leaves_registry_unchanged.2.1 [mkRho zeroFn] "vol" false
      .UnknownSymbolError rfl⟩

/-- The expected composed evaluation of the demonstrated mass entry: the
product of the referenced results of the referenced entries, multiplied by the constant
unit-conversion factor 1/1000 on the final result. -/
def massExpected (f g : List Frac → Option Frac) (a b c : Frac) : Option Frac :=
  Option.bind (f [a, b, c]) (fun x =>
    Option.bind (g [a, b]) (fun y => some (fmul (fmul x y) ⟨1, 1000⟩)))

/-- The compiled expression of the demonstrated mass entry: the resolved
product with the constant conversion factor multiplied onto the final
result. -/
def massExprC : CExpr :=
  .mul (.mul (.call "rho" ["x", "y", "z"]) (.call "vol" ["x", "y"])) (.rat ⟨1, 1000⟩)

/-- The entry produced by registering `mass [g]` as `rho*vol` over the
demonstrated registry. -/
def massEntry (f g : List Frac → Option Frac) : Entry :=
  ⟨"mass", ["x", "y", "z"], "g", some (printC massExprC), ["rho", "vol"],
    fun vals => evalC (scenReg f g) (["x", "y", "z"].zip vals) massExprC⟩

/-- C3: with `rho` in kg/m^3 and `vol` in cm^3 registered, registering
`mass [g]` as `rho*vol` compiles a callable that invokes both entries
internally and multiplies the composed result by the constant factor
1/1000, and the detail row for mass shows rhs
`rho(x, y, z)*vol(x, y)/1000`. -/
theorem C3_mass_unit_conversion_factor (f g : List Frac → Option Frac) (a b c : Frac) :
    okB (set (scenReg f g) "mass [g]" (.strV "rho*vol")) = true ∧
    (getD (setD (scenReg f g) "mass [g]" (.strV "rho*vol")) "mass").args =
      ["x", "y", "z"] ∧
    (getD (setD (scenReg f g) "mass [g]" (.strV "rho*vol")) "mass").rhs =
      some "rho(x, y, z)*vol(x, y)/1000" ∧
    (getD (setD (scenReg f g) "mass [g]" (.strV "rho*vol")) "mass").unitStr = "g" ∧
    (getD (setD (scenReg f g) "mass [g]" (.strV "rho*vol")) "mass").fn [a, b, c] =
      massExpected f g a b c := by
  have hE : getD (setD (scenReg f g) "mass [g]" (.strV "rho*vol")) "mass" =
      massEntry f g := rfl
  refine ⟨rfl, ?_, ?_, ?_, ?_⟩
  · rw [hE]
    rfl
  · rw [hE]
    show some (printC massExprC) = some "rho(x, y, z)*vol(x, y)/1000"
    decide
  · rw [hE]
    rfl
  · rw [hE]
    have e1 : (massEntry f g).fn [a, b, c] =
        Option.bind
          (Option.bind (f [a, b, c]) (fun x =>
            Option.bind (g [a, b]) (fun y => some (fmul x y))))
          (fun t => some (fmul t ⟨1, 1000⟩)) := rfl
    rw [e1]
    unfold massExpected
    rcases f [a, b, c] with _ | x
    · rfl
    · rcases g [a, b] with _ | y
      · rfl
      · rfl

@[simp] theorem names_nil : names [] = [] := rfl

@[simp] theorem names_cons (e : Entry) (r : Registry) :
    names (e :: r) = e.name :: names r := rfl

theorem names_append (r1 r2 : Registry) : names (r1 ++ r2) = names r1 ++ names r2 := by
  simp [names]

theorem name_mem_names {r : Registry} {e : Entry} (h : e ∈ r) : e.name ∈ names r :=
  List.mem_map_of_mem _ h

/-- Well-formedness of a registry: bare names pairwise distinct, full
signature keys pairwise distinct, and no bare name collides with any
signature key. -/
def WFr (r : Registry) : Prop :=
  (names r).Nodup ∧ (r.map sigKey).Nodup ∧
    ∀ e1 ∈ r, ∀ e2 ∈ r, e1.name ≠ sigKey e2

theorem find_both_keys (r : Registry) :
    ∀ e : Entry, WFr r → e ∈ r →
      r.find? (keyMatches e.name) = some e ∧
      r.find? (keyMatches (sigKey e)) = some e ∧
      slot r e.name = slot r (sigKey e) := by
  induction r with
  | nil =>
      intro e _ he
      cases he
  | cons e0 rest ih =>
      intro e hwf he
      obtain ⟨hn, hs, hx⟩ := hwf
      simp only [names_cons, List.nodup_cons] at hn
      simp only [List.map_cons, List.nodup_cons] at hs
      rcases List.mem_cons.mp he with heq | hmem
      · subst heq
        have h1 : keyMatches e.name e = true := by simp [keyMatches]
        have h2 : keyMatches (sigKey e) e = true := by simp [keyMatches]
        refine ⟨?_, ?_, ?_⟩
        · rw [List.find?_cons_of_pos _ h1]
        · rw [List.find?_cons_of_pos _ h2]
        · simp [slot, h1, h2]
      · have hne1 : e0.name ≠ e.name := by
          intro hq
          exact hn.1 (by rw [hq]; exact name_mem_names hmem)
        have hnesig : sigKey e0 ≠ sigKey e := by
          intro hq
          exact hs.1 (by rw [hq]; exact List.mem_map_of_mem _ hmem)
        have hxa : e.name ≠ sigKey e0 :=
          hx e he e0 (List.mem_cons_self e0 rest)
        have hxb : e0.name ≠ sigKey e :=
          hx e0 (List.mem_cons_self e0 rest) e he
        have hm1 : keyMatches e.name e0 = false := by
          simp [keyMatches]
          exact ⟨Ne.symm hne1, hxa⟩
        have hm2 : keyMatches (sigKey e) e0 = false := by
          simp [keyMatches]
          exact ⟨Ne.symm hxb, Ne.symm hnesig⟩
        have hrest : WFr rest :=
          ⟨hn.2, hs.2, fun e1 h1 e2 h2 =>
            hx e1 (List.mem_cons_of_mem _ h1) e2 (List.mem_cons_of_mem _ h2)⟩
        obtain ⟨f1, f2, f3⟩ := ih e hrest hmem
        refine ⟨?_, ?_, ?_⟩
        · rw [List.find?_cons_of_neg _ (by simp [hm1]), f1]
        · rw [List.find?_cons_of_neg _ (by simp [hm2]), f2]
        · simp [slot, hm1, hm2, f3]

/-- C1: in a well-formed registry, looking an entry up by its bare name
and by its full signature key returns the very same stored entry, found
at the same storage slot — one entry reachable through two key forms,
not two equal copies. -/
theorem C1_bare_and_signature_key_same_entry (r : Registry) (e : Entry)
    (hwf : WFr r) (he : e ∈ r) :
    get r e.name = .ok e ∧ get r (sigKey e) = .ok e ∧
    slot r e.name = slot r (sigKey e) := by
  obtain ⟨h1, h2, h3⟩ := find_both_keys r e hwf he
  exact ⟨by simp [get, h1], by simp [get, h2], h3⟩

/-- Witness for C1: the demonstrated rho entry is returned identically
under its bare name and its full signature key. -/
theorem C1_witness :
    get [mkRho zeroFn] "rho" = .ok (mkRho zeroFn) ∧
    get [mkRho zeroFn] "rho(x, y, z)" = .ok (mkRho zeroFn) ∧
    slot [mkRho zeroFn] "rho" = slot [mkRho zeroFn] "rho(x, y, z)" := by
  have h := C1_bare_and_signature_key_same_entry [mkRho zeroFn] (mkRho zeroFn)
    ⟨by decide, by decide, by decide⟩ (List.mem_singleton.mpr rfl)
  exact h

theorem mem_addParam (acc : List String) (x s : String) :
    s ∈ addParam acc x ↔ s ∈ acc ∨ s = x := by
  by_cases h : x ∈ acc
  · simp only [addParam, if_pos h]
    constructor
    · exact Or.inl
    · rintro (hs | rfl)
      · exact hs
      · exact h
  · simp [addParam, if_neg h, List.mem_append]

theorem nodup_addParam (acc : List String) (x : String) (h : acc.Nodup) :
    (addParam acc x).Nodup := by
  by_cases hx : x ∈ acc
  · simpa [addParam, if_pos hx] using h
  · simp [addParam, if_neg hx, List.nodup_append, h, hx]

theorem foldl_addParam_mem (l : List String) (acc : List String) (s : String) :
    s ∈ l.foldl addParam acc ↔ s ∈ acc ∨ s ∈ l := by
  induction l generalizing acc with
  | nil => simp
  | cons x xs ih =>
      simp only [List.foldl_cons, ih, mem_addParam, List.mem_cons]
      tauto

theorem foldl_addParam_nodup (l : List String) (acc : List String) (h : acc.Nodup) :
    (l.foldl addParam acc).Nodup := by
  induction l generalizing acc with
  | nil => simpa
  | cons x xs ih => exact ih _ (nodup_addParam _ _ h)

/-- C6: the compiled parameter list of a derived entry is the union, in
first-seen order and without duplicates, of the free parameters
occurring in its expression; a derived entry over rho(x, y, z) and
vol(x, y) therefore compiles to the signature (x, y, z), with the
referenced entries invoked internally rather than adding parameters. -/
theorem C6_compiled_signature_first_seen_union (f g : List Frac → Option Frac) :
    (getD (setD (scenReg f g) "mass [g]" (.strV "rho*vol")) "mass").args =
      ["x", "y", "z"] ∧
    (∀ e : CExpr, (paramsOf e).Nodup) ∧
    (∀ (e : CExpr) (s : String), s ∈ paramsOf e ↔ s ∈ freeSeq e) := by
  refine ⟨rfl, fun e => foldl_addParam_nodup _ _ List.nodup_nil, fun e s => ?_⟩
  unfold paramsOf
  rw [foldl_addParam_mem]
  simp

theorem okB_ok {ε α : Type} (x : Except ε α) (h : okB x = true) : ∃ y, x = .ok y := by
  cases x with
  | ok y => exact ⟨y, rfl⟩
  | error e => simp [okB] at h

theorem set_ok_insert (r : Registry) (k : String) (v : Val) (nm : String)
    (oa : Option (List String)) (ou : Option String) (r2 : Registry)
    (hpk : parseKey k = .ok (nm, oa, ou)) (hok : set r k v = .ok r2) :
    ∃ e : Entry, e.name = nm ∧ r2 = insertEntry r e := by
  unfold set at hok
  rw [hpk] at hok
  have hok2 : (match compileVal r nm oa ou v with
      | .error er => (.error er : Except RegistryError Registry)
      | .ok p => .ok (insertEntry r ⟨nm, p.args, p.unitStr, p.rhs, p.deps, p.fn⟩)) =
      .ok r2 := hok
  rcases hc : compileVal r nm oa ou v with er | p
  · rw [hc] at hok2
    simp at hok2
  · rw [hc] at hok2
    have h3 : Except.ok (insertEntry r ⟨nm, p.args, p.unitStr, p.rhs, p.deps, p.fn⟩) =
        Except.ok r2 := hok2
    injection h3 with h4
    exact ⟨_, rfl, h4.symm⟩

theorem any_name_eq (r : Registry) (s : String) :
    (r.any (fun e0 => e0.name == s)) = true ↔ s ∈ names r := by
  induction r with
  | nil => simp
  | cons e rest ih =>
      simp only [List.any_cons, Bool.or_eq_true, beq_iff_eq, ih, names_cons,
        List.mem_cons]
      tauto

theorem names_map_replace (r : Registry) (e : Entry) :
    names (r.map (fun e0 => if e0.name == e.name then e else e0)) = names r := by
  induction r with
  | nil => rfl
  | cons e0 rest ih =>
      by_cases h0 : e0.name = e.name
      · simp [names, h0] at ih ⊢
        exact ih
      · simp [names, h0] at ih ⊢
        exact ih

theorem names_insertEntry_of_mem (r : Registry) (e : Entry) (h : e.name ∈ names r) :
    names (insertEntry r e) = names r := by
  unfold insertEntry
  rw [if_pos ((any_name_eq r e.name).mpr h)]
  exact names_map_replace r e

theorem names_insertEntry_of_not_mem (r : Registry) (e : Entry) (h : e.name ∉ names r) :
    names (insertEntry r e) = names r ++ [e.name] := by
  unfold insertEntry
  rw [if_neg (fun hc => h ((any_name_eq r e.name).mp hc))]
  exact names_append r [e]

theorem delete_ok_filter (r : Registry) (k : String) (force : Bool) (e : Entry)
    (r2 : Registry) (hfind : r.find? (keyMatches k) = some e)
    (hok : delete r k force = .ok r2) :
    r2 = r.filter (fun e2 => e2.name != e.name) := by
  unfold delete at hok
  rw [hfind] at hok
  have hok2 : (if !force && r.any (fun e2 => e2.name != e.name && e2.deps.contains e.name)
      then (.error .DependentEntryExistsError : Except RegistryError Registry)
      else .ok (r.filter (fun e2 => e2.name != e.name))) = .ok r2 := hok
  by_cases hguard :
      (!force && r.any (fun e2 => e2.name != e.name && e2.deps.contains e.name)) = true
  · rw [if_pos hguard] at hok2
    simp at hok2
  · rw [if_neg hguard] at hok2
    injection hok2 with h4
    exact h4.symm

theorem names_filter_name (r : Registry) (s : String) :
    names (r.filter (fun e2 => e2.name != s)) = (names r).filter (fun m => !(m == s)) := by
  induction r with
  | nil => rfl
  | cons e0 rest ih =>
      by_cases h : e0.name = s
      · simp [List.filter_cons, h, ih]
      · simp [List.filter_cons, h, ih]

theorem not_mem_filter_self (l : List String) (s : String) :
    s ∉ l.filter (fun m => !(m == s)) := by
  intro h
  have hp := List.of_mem_filter h
  simp at hp

theorem setD_names (r : Registry) (k : String) (v : Val) (nm : String)
    (oa : Option (List String)) (ou : Option String)
    (hpk : parseKey k = .ok (nm, oa, ou)) (hok : okB (set r k v) = true) :
    (nm ∈ names r → names (setD r k v) = names r) ∧
    (nm ∉ names r → names (setD r k v) = names r ++ [nm]) := by
  obtain ⟨r2, h2⟩ := okB_ok _ hok
  obtain ⟨e, hename, hr2⟩ := set_ok_insert r k v nm oa ou r2 hpk h2
  have hsd : setD r k v = insertEntry r e := by
    unfold setD
    rw [h2, hr2]
  constructor
  · intro hmem
    rw [hsd, names_insertEntry_of_mem r e (by rw [hename]; exact hmem)]
  · intro hmem
    rw [hsd, names_insertEntry_of_not_mem r e (by rw [hename]; exact hmem), hename]

theorem deleteD_names (r : Registry) (k : String) (force : Bool) (e : Entry)
    (hfind : r.find? (keyMatches k) = some e) (hok : okB (delete r k force) = true) :
    names (deleteD r k force) = (names r).filter (fun m => !(m == e.name)) := by
  obtain ⟨r2, h2⟩ := okB_ok _ hok
  have hr2 := delete_ok_filter r k force e r2 hfind h2
  unfold deleteD
  rw [h2, hr2, names_filter_name]

/-- C8: `iterate` yields bare-name entries in insertion order; replacing
an existing bare name keeps the name sequence (hence the entry
position) unchanged while a fresh bare name is appended; deleting
removes only that name, preserving the order of the rest; and deleting
then re-registering the same bare name places it at the new latest
position. -/
theorem C8_iteration_insertion_order :
    (∀ r : Registry, (iterate r).map Prod.fst = names r) ∧
    (∀ (r : Registry) (k : String) (v : Val) (nm : String)
        (oa : Option (List String)) (ou : Option String),
        parseKey k = .ok (nm, oa, ou) → okB (set r k v) = true →
          (nm ∈ names r → names (setD r k v) = names r) ∧
          (nm ∉ names r → names (setD r k v) = names r ++ [nm])) ∧
    (∀ (r : Registry) (k : String) (force : Bool) (e : Entry),
        r.find? (keyMatches k) = some e → okB (delete r k force) = true →
          names (deleteD r k force) = (names r).filter (fun m => !(m == e.name))) ∧
    (∀ (r : Registry) (k k2 : String) (v : Val) (e : Entry)
        (oa : Option (List String)) (ou : Option String),
        r.find? (keyMatches k) = some e → okB (delete r k false) = true →
        parseKey k2 = .ok (e.name, oa, ou) →
        okB (set (deleteD r k false) k2 v) = true →
          names (setD (deleteD r k false) k2 v) =
            (names r).filter (fun m => !(m == e.name)) ++ [e.name]) := by
  refine ⟨?_, ?_, ?_, ?_⟩
  · intro r
    simp [iterate, names]
  · intro r k v nm oa ou hpk hok
    exact setD_names r k v nm oa ou hpk hok
  · intro r k force e hfind hok
    exact deleteD_names r k force e hfind hok
  · intro r k k2 v e oa ou hfind hdok hpk hsok
    have hdel := deleteD_names r k false e hfind hdok
    have hset := (setD_names (deleteD r k false) k2 v e.name oa ou hpk hsok).2
    rw [hset (by rw [hdel]; exact not_mem_filter_self _ _), hdel]

/-- Witness for C8: replacing `rho` in a two-entry registry keeps the
name order, while deleting `rho` and re-registering it moves it to the
latest position. -/
theorem C8_witness :
    names (setD [mkRho zeroFn, mkVol zeroFn] "rho"
        (.fnV ["x", "y", "z"] "kg/m^3" zeroFn)) = ["rho", "vol"] ∧
    names (setD (deleteD [mkRho zeroFn, mkVol zeroFn] "rho" false) "rho"
        (.fnV ["x", "y", "z"] "kg/m^3" zeroFn)) = ["vol", "rho"] := by
  have h := C8_iteration_insertion_order
  constructor
  · exact (h.2.1 [mkRho zeroFn, mkVol zeroFn] "rho"
      (.fnV ["x", "y", "z"] "kg/m^3" zeroFn) "rho" none none rfl rfl).1 (by decide)
  · have h4 := h.2.2.2 [mkRho zeroFn, mkVol zeroFn] "rho" "rho"
      (.fnV ["x", "y", "z"] "kg/m^3" zeroFn) (mkRho zeroFn) none none rfl rfl rfl rfl
    exact h4.trans (by decide)

/-- C4 (amended): when no explicit data argument is supplied, the
data field of the wrapper is computed at wrap time by invoking the wrapped
function with its declared defaults; for the demonstrated function, with
default arrays of lengths 11, 22, 33, that invocation yields shape
(22, 11, 33). -/
theorem C4_data_from_defaults_when_not_supplied :
    (∀ (α β : Type) (fn : α → β) (d : α) (m : KMeta),
        (kamodofy fn d m none).data = fn d) ∧
    (kamodofy rhoShapeFn modelGridLens rhoMeta none).data = [22, 11, 33] := by
  exact ⟨fun α β fn d m => rfl, rfl⟩

end Kamodo
